import Mathlib

/-!
Verification of `repairer.py` (numberly/cassandra-read-repairer).

The file shallowly embeds the pure core of the script:

* `get_token_ranges` — the token-space partitioner (`repairer.py`, lines 15-38);
* `print_stats` — the progress tracker (lines 41-53);
* `repair_table` — the per-table driver loop (lines 56-118), with the
  cluster/session/metadata interaction (an external collaborator) abstracted
  as an `Except`-valued setup step, and the per-range results delivered by
  `cassandra.concurrent.execute_concurrent` abstracted as a list of outcomes;
* the credential / TLS option construction and the table-list resolution of
  the `__main__` block (lines 205-239).

Machine integers: Python ints are unbounded, so `Int`/`Nat` model them
exactly.  `sys.maxsize` is `2^63 - 1` on a 64-bit CPython.  `int(x)` applied
to the non-negative float `(a / b) * 100` truncates towards zero, i.e. is the
floor of the exact ratio; we model it with exact natural division.
-/

namespace Repairer

/-- `sys.maxsize` on 64-bit CPython: `2^63 - 1`. -/
def sys_maxsize : Int := 2 ^ 63 - 1

/-- The `while True` loop of `get_token_ranges` (`repairer.py` lines 24-36):
`end = start + range_size`; if `end >= sys.maxsize` clamp `end` to
`sys.maxsize`, append and stop; otherwise append `(start, end)` and continue
from `end + 1`.  `range_size = max_size // partition_size` is a non-negative
Python int, hence a `Nat`. -/
def get_token_ranges_loop (range_size : Nat) (start : Int) :
    List (Int × Int) :=
  if sys_maxsize ≤ start + (range_size : Int) then
    [(start, sys_maxsize)]
  else
    (start, start + (range_size : Int)) ::
      get_token_ranges_loop range_size (start + (range_size : Int) + 1)
termination_by (sys_maxsize - start).toNat
decreasing_by
  simp_wf
  omega

/-- `get_token_ranges` (`repairer.py` lines 15-38):
`max_size = sys.maxsize * 2`, `range_size = max_size // partition_size`,
loop from `start = -sys.maxsize`.  (At `partition_size = 0` Python raises
`ZeroDivisionError`; every claim assumes a positive `partition_size`.) -/
def get_token_ranges (partition_size : Nat) : List (Int × Int) :=
  let max_size : Nat := (2 ^ 63 - 1) * 2
  let range_size : Nat := max_size / partition_size
  get_token_ranges_loop range_size (-sys_maxsize)

/-- Structural facts about the loop: starting from any `start ≤ sys_maxsize`
the produced list is nonempty, begins at `start`, ends at `sys_maxsize`,
consecutive ranges are contiguous (`next.start = prev.end + 1`), and every
range satisfies `start ≤ end`. -/
lemma get_token_ranges_loop_props (range_size : Nat) :
    ∀ (n : Nat) (start : Int), (sys_maxsize - start).toNat = n →
      start ≤ sys_maxsize →
      (get_token_ranges_loop range_size start ≠ [] ∧
       (get_token_ranges_loop range_size start).head?.map Prod.fst
          = some start ∧
       (get_token_ranges_loop range_size start).getLast?.map Prod.snd
          = some sys_maxsize ∧
       List.Chain' (fun a b => b.1 = a.2 + 1)
          (get_token_ranges_loop range_size start) ∧
       ∀ p ∈ get_token_ranges_loop range_size start, p.1 ≤ p.2) := by
  intro n
  induction n using Nat.strong_induction_on with
  | _ n ih =>
    intro start hn hle
    rw [get_token_ranges_loop]
    by_cases hcl : sys_maxsize ≤ start + (range_size : Int)
    · simp only [hcl, if_true]
      refine ⟨by simp, by simp, by simp, by simp, ?_⟩
      intro p hp
      simp only [List.mem_singleton] at hp
      subst hp
      exact hle
    · simp only [hcl, if_false]
      have hlt : start + (range_size : Int) < sys_maxsize := lt_of_not_le hcl
      have hle' : start + (range_size : Int) + 1 ≤ sys_maxsize := by omega
      have hmeas : (sys_maxsize - (start + (range_size : Int) + 1)).toNat < n := by
        omega
      obtain ⟨hne, hhead, hlast, hchain, hbnd⟩ :=
        ih _ hmeas (start + (range_size : Int) + 1) rfl hle'
      refine ⟨by simp, by simp, ?_, ?_, ?_⟩
      · obtain ⟨q, l'', hql⟩ := List.exists_cons_of_ne_nil hne
        rw [hql, List.getLast?_cons_cons]
        rw [hql] at hlast
        exact hlast
      · rw [List.chain'_cons']
        refine ⟨?_, hchain⟩
        intro b hb
        rw [Option.mem_def] at hb
        rw [hb] at hhead
        simp only [Option.map_some', Option.some.injEq] at hhead
        simpa using hhead
      · intro p hp
        rcases List.mem_cons.mp hp with h | h
        · subst h; simp
        · exact hbnd p h

/-- C1 — For every positive `partition_size`, `get_token_ranges` returns a
nonempty ordered sequence of ranges whose first range starts at
`-(2^63 - 1)`, whose last range ends exactly at `2^63 - 1`, in which each
range after the first starts at the previous range's end plus 1, and in
which every range has `start ≤ end`: the sequence tiles
`[-(2^63-1), 2^63-1]` with no gaps and no overlaps. -/
theorem token_ranges_tile (partition_size : Nat) (_h : 0 < partition_size) :
    get_token_ranges partition_size ≠ [] ∧
    (get_token_ranges partition_size).head?.map Prod.fst
        = some (-sys_maxsize) ∧
    (get_token_ranges partition_size).getLast?.map Prod.snd
        = some sys_maxsize ∧
    List.Chain' (fun a b => b.1 = a.2 + 1)
        (get_token_ranges partition_size) ∧
    ∀ p ∈ get_token_ranges partition_size, p.1 ≤ p.2 := by
  have hle : -sys_maxsize ≤ sys_maxsize := by
    simp only [sys_maxsize]; omega
  exact get_token_ranges_loop_props _ _ (-sys_maxsize) rfl hle

/-- Witness for C1 at `partition_size = 4`. -/
theorem token_ranges_tile_witness :
    0 < 4 ∧
    (get_token_ranges 4 ≠ [] ∧
     (get_token_ranges 4).head?.map Prod.fst = some (-sys_maxsize) ∧
     (get_token_ranges 4).getLast?.map Prod.snd = some sys_maxsize ∧
     List.Chain' (fun a b => b.1 = a.2 + 1) (get_token_ranges 4) ∧
     ∀ p ∈ get_token_ranges 4, p.1 ≤ p.2) :=
  ⟨by decide, token_ranges_tile 4 (by decide)⟩

/-- With `range_size = 0` the loop emits one single-token range per token:
its length is `(sys_maxsize - start).toNat + 1`. -/
lemma get_token_ranges_loop_zero_length :
    ∀ (n : Nat) (start : Int), (sys_maxsize - start).toNat = n →
      start ≤ sys_maxsize →
      (get_token_ranges_loop 0 start).length
        = (sys_maxsize - start).toNat + 1 := by
  intro n
  induction n using Nat.strong_induction_on with
  | _ n ih =>
    intro start hn hle
    rw [get_token_ranges_loop]
    by_cases hcl : sys_maxsize ≤ start + ((0 : Nat) : Int)
    · simp only [hcl, if_true, List.length_singleton]
      push_cast at hcl
      omega
    · simp only [hcl, if_false, List.length_cons]
      push_cast at hcl
      have hmeas : (sys_maxsize - (start + ((0 : Nat) : Int) + 1)).toNat < n := by
        push_cast
        omega
      rw [ih _ hmeas (start + ((0 : Nat) : Int) + 1) rfl (by push_cast; omega)]
      push_cast
      omega

/-- C5 — At `partition_size = 2^64` the computed `range_size` is
`(2 * (2^63 - 1)) / 2^64 = 0`, and `get_token_ranges` does not fail fast:
instead of raising a configuration error it enters the emission loop and
returns `2^64 - 1` ranges, the first being the degenerate single-token
range `(-(2^63-1), -(2^63-1))`.  The function has no error outcome at all;
this theorem evaluates the code at the failing input. -/
theorem zero_range_size_no_fail_fast :
    (get_token_ranges (2 ^ 64)).length = 2 ^ 64 - 1 ∧
    (get_token_ranges (2 ^ 64)).head? = some (-sys_maxsize, -sys_maxsize) := by
  have hrs : ((2 ^ 63 - 1) * 2 : Nat) / 2 ^ 64 = 0 :=
    Nat.div_eq_of_lt (by norm_num)
  have hle : -sys_maxsize ≤ sys_maxsize := by
    simp only [sys_maxsize]; omega
  constructor
  · simp only [get_token_ranges]
    rw [hrs, get_token_ranges_loop_zero_length _ (-sys_maxsize) rfl hle]
    simp only [sys_maxsize]
    norm_num
    omega
  · simp only [get_token_ranges]
    rw [hrs, get_token_ranges_loop]
    norm_num [sys_maxsize]

/-- `get_token_ranges 4` computed in closed form: exactly 4 ranges tiling
the token space (`range_size = (2^64 - 2) / 4 = 4611686018427387903`). -/
lemma get_token_ranges_four :
    get_token_ranges 4 =
      [(-9223372036854775807, -4611686018427387904),
       (-4611686018427387903, 0),
       (1, 4611686018427387904),
       (4611686018427387905, 9223372036854775807)] := by
  have hrs : ((2 ^ 63 - 1) * 2 : Nat) / 4 = 4611686018427387903 := by norm_num
  simp only [get_token_ranges]
  rw [hrs]
  rw [get_token_ranges_loop]
  norm_num [sys_maxsize]
  rw [get_token_ranges_loop]
  norm_num [sys_maxsize]
  rw [get_token_ranges_loop]
  norm_num [sys_maxsize]
  rw [get_token_ranges_loop]
  norm_num [sys_maxsize]

/-! ### The table repair driver (`repairer.py` lines 41-118)

One result yielded by `execute_concurrent(..., raise_on_first_error=False,
results_generator=True)` is a `(success, result)` pair: either a failure
(the error object is never inspected by the script) or a success whose
`result.current_rows` is a list of rows, each contributing `row.count`.
Only the counts matter to the script, so a row is modelled by its `count`
field. -/

/-- One `(success, result)` pair delivered for one token range. -/
inductive Outcome where
  | failure : Outcome
  | success : List Nat → Outcome
deriving DecidableEq, Repr

/-- The `stats = Counter()` accumulator of `repair_table` plus the
`"percent"` high-water mark read and written by `print_stats`; a missing
`Counter` key reads as 0, so every field starts at 0. -/
structure Stats where
  repaired_rows : Nat := 0
  repaired_partitions : Nat := 0
  failed_partitions : Nat := 0
  percent : Nat := 0
deriving DecidableEq, Repr

/-- `print_stats` (`repairer.py` lines 41-53):
`percent = int((repaired_partitions + failed_partitions) / len_partitions
* 100)` (floor of the non-negative ratio, modelled by exact natural
division); a line is printed only when `percent > stats["percent"]`, and
then `stats["percent"]` is updated.  The returned `Option Nat` is the
percentage of the printed line (`none` when nothing is printed). -/
def print_stats (len_partitions : Nat) (stats : Stats) : Option Nat × Stats :=
  let percent :=
    (stats.repaired_partitions + stats.failed_partitions) * 100
      / len_partitions
  if stats.percent < percent then
    (some percent, { stats with percent := percent })
  else
    (none, stats)

/-- The body of the `for (success, result) in concurrent` loop
(`repairer.py` lines 105-111) applied to one outcome: a failure increments
`failed_partitions`; a success iterates over `result.current_rows`, adding
`row.count` to `repaired_rows` and incrementing `repaired_partitions`
once per row. -/
def apply_outcome (stats : Stats) (o : Outcome) : Stats :=
  match o with
  | .failure =>
      { stats with failed_partitions := stats.failed_partitions + 1 }
  | .success rows =>
      rows.foldl
        (fun s c =>
          { s with repaired_rows := s.repaired_rows + c,
                   repaired_partitions := s.repaired_partitions + 1 })
        stats

/-- The delivery loop (`repairer.py` lines 105-112): fold every outcome
into the stats, calling `print_stats` after each one.  Returns the printed
percentages in order together with the final stats. -/
def run_loop (len_partitions : Nat) :
    List Outcome → Stats → List Nat × Stats
  | [], stats => ([], stats)
  | o :: rest, stats =>
      let stats1 := apply_outcome stats o
      let step := print_stats len_partitions stats1
      let tail := run_loop len_partitions rest step.2
      (step.1.toList ++ tail.1, tail.2)

/-- Observable result of one `repair_table` call: the returned boolean,
the percentages of the printed progress lines, the final stats, and the
error line printed by the `except` branch (if any). -/
structure RepairResult where
  ok : Bool
  emitted : List Nat
  stats : Stats
  error_line : Option String
deriving DecidableEq, Repr

/-- `repair_table` (`repairer.py` lines 56-118).  The cluster interaction
of the `try` body before the delivery loop — `Cluster(...)`,
`cluster.connect(keyspace)`, partition-key metadata lookup,
`session.prepare` — is an external collaborator; `setup` is `.error err`
when that part raises an exception `err`, in which case the `except`
branch prints `f"{keyspace}.{table} error: {err}"` and returns `False`.
Otherwise the loop processes every delivered outcome, `print_stats` is
called once more unconditionally (line 113), and the function returns
`True`. -/
def repair_table (keyspace table : String) (setup : Except String Unit)
    (partitions : List (Int × Int)) (outcomes : List Outcome) :
    RepairResult :=
  match setup with
  | .error err =>
      { ok := false, emitted := [], stats := {},
        error_line := some (keyspace ++ "." ++ table ++ " error: " ++ err) }
  | .ok _ =>
      let len_partitions := partitions.length
      let run := run_loop len_partitions outcomes {}
      let final := print_stats len_partitions run.2
      { ok := true, emitted := run.1 ++ final.1.toList,
        stats := final.2, error_line := none }

/-! ### The `__main__` block (`repairer.py` lines 121-262) -/

/-- Python truthiness of an optional string option (argparse default is
`None`; `None` and `""` are falsy). -/
def py_truthy (s : Option String) : Bool :=
  match s with
  | none => false
  | some str => !str.isEmpty

/-- Lines 206-211: `PlainTextAuthProvider(username=..., password=...)` is
constructed only under `if options.username and options.password:`;
otherwise `auth_provider = None`.  Modelled as the optional
`(username, password)` pair handed to the provider. -/
def make_auth_provider (username password : Option String) :
    Option (String × String) :=
  if py_truthy username && py_truthy password then
    some (username.getD "", password.getD "")
  else
    none

/-- `ssl.PROTOCOL_TLSv1_2` and the `ssl` module certificate-requirement
constants used on lines 212-219. -/
inductive SSLVersion where
  | TLSv1_2 : SSLVersion
deriving DecidableEq, Repr

/-- Certificate-verification modes of the Python `ssl` module. -/
inductive CertReqs where
  | CERT_NONE : CertReqs
  | CERT_OPTIONAL : CertReqs
  | CERT_REQUIRED : CertReqs
deriving DecidableEq, Repr

/-- The `ssl_opts` dict literal of lines 213-217. -/
structure SSLOpts where
  ca_certs : String
  ssl_version : SSLVersion
  cert_reqs : CertReqs
deriving DecidableEq, Repr

/-- Lines 212-219: `if options.cacert:` build
`{"ca_certs": options.cacert, "ssl_version": PROTOCOL_TLSv1_2,
"cert_reqs": CERT_NONE}`, else `ssl_opts = None`. -/
def make_ssl_opts (cacert : Option String) : Option SSLOpts :=
  if py_truthy cacert then
    some { ca_certs := cacert.getD "",
           ssl_version := SSLVersion.TLSv1_2,
           cert_reqs := CertReqs.CERT_NONE }
  else
    none

/-- The string-valued attributes of the `argparse.Namespace` built on
lines 126-203, keyed by their `dest` names.  The int-valued dests are
`request_timeout`, `concurrency`, `processes`, `partitionsize`; no dest
whatsoever is named `table`. -/
def parsed_attrs (keyspaces tables username password cacert : Option String)
    (hosts : String) : List (String × Option String) :=
  [("keyspaces", keyspaces), ("tables", tables), ("username", username),
   ("password", password), ("hosts", some hosts), ("cacert", cacert)]

/-- Python attribute access `options.<name>` on the argparse namespace:
reading a `dest` that exists yields its value, reading any other name
raises `AttributeError`. -/
def getattr (attrs : List (String × Option String)) (name : String) :
    Except String (Option String) :=
  match attrs.lookup name with
  | some v => Except.ok v
  | none => Except.error ("AttributeError: " ++ name)

/-- Lines 236-239, the per-keyspace table-list resolution:
`if options.tables: tables = options.table.split(",")` — note the access
to the attribute `table`, not `tables` — `else:` use the table names from
cluster metadata. -/
def resolve_tables (attrs : List (String × Option String))
    (metadata_tables : List String) : Except String (List String) :=
  match getattr attrs "tables" with
  | Except.error e => Except.error e
  | Except.ok tablesOpt =>
      if py_truthy tablesOpt then
        match getattr attrs "table" with
        | Except.error e => Except.error e
        | Except.ok v => Except.ok ((v.getD "").splitOn ",")
      else
        Except.ok metadata_tables

/-! ### Counter accounting -/

/-- Rows contributed by one outcome (0 for a failure). -/
def outcome_rows : Outcome → Nat
  | Outcome.failure => 0
  | Outcome.success rows => rows.sum

/-- `repaired_partitions` increments contributed by one outcome: one per
row of a success, none for a failure. -/
def outcome_partitions : Outcome → Nat
  | Outcome.failure => 0
  | Outcome.success rows => rows.length

/-- `failed_partitions` increments contributed by one outcome. -/
def outcome_failures : Outcome → Nat
  | Outcome.failure => 1
  | Outcome.success _ => 0

/-- Number of outcomes delivered as failures. -/
def count_failures (os : List Outcome) : Nat :=
  (os.map outcome_failures).sum

/-- Decidable form of "every success carries exactly one row" (a
`SELECT COUNT` result has exactly one row). -/
def one_row_successes (os : List Outcome) : Bool :=
  os.all (fun o =>
    match o with
    | Outcome.failure => true
    | Outcome.success rows => rows.length == 1)

lemma success_fold (rows : List Nat) : ∀ s : Stats,
    rows.foldl
      (fun s c =>
        { s with repaired_rows := s.repaired_rows + c,
                 repaired_partitions := s.repaired_partitions + 1 }) s
      = { s with repaired_rows := s.repaired_rows + rows.sum,
                 repaired_partitions := s.repaired_partitions + rows.length } := by
  induction rows with
  | nil => intro s; simp
  | cons c rest ih =>
      intro s
      simp only [List.foldl_cons, ih, List.sum_cons, List.length_cons]
      cases s
      simp only [Stats.mk.injEq, and_true]
      omega

lemma apply_outcome_fields (s : Stats) (o : Outcome) :
    (apply_outcome s o).repaired_rows = s.repaired_rows + outcome_rows o ∧
    (apply_outcome s o).repaired_partitions
        = s.repaired_partitions + outcome_partitions o ∧
    (apply_outcome s o).failed_partitions
        = s.failed_partitions + outcome_failures o ∧
    (apply_outcome s o).percent = s.percent := by
  cases o with
  | failure =>
      simp [apply_outcome, outcome_rows, outcome_partitions, outcome_failures]
  | success rows =>
      simp [apply_outcome, outcome_rows, outcome_partitions, outcome_failures,
        success_fold]

lemma print_stats_counters (n : Nat) (s : Stats) :
    (print_stats n s).2.repaired_rows = s.repaired_rows ∧
    (print_stats n s).2.repaired_partitions = s.repaired_partitions ∧
    (print_stats n s).2.failed_partitions = s.failed_partitions := by
  simp only [print_stats]
  split <;> simp

lemma run_loop_counters (n : Nat) (os : List Outcome) : ∀ s : Stats,
    (run_loop n os s).2.repaired_rows
        = s.repaired_rows + (os.map outcome_rows).sum ∧
    (run_loop n os s).2.repaired_partitions
        = s.repaired_partitions + (os.map outcome_partitions).sum ∧
    (run_loop n os s).2.failed_partitions
        = s.failed_partitions + (os.map outcome_failures).sum := by
  induction os with
  | nil => intro s; simp [run_loop]
  | cons o rest ih =>
      intro s
      obtain ⟨h1, h2, h3⟩ := ih (print_stats n (apply_outcome s o)).2
      obtain ⟨a1, a2, a3, _⟩ := apply_outcome_fields s o
      obtain ⟨p1, p2, p3⟩ := print_stats_counters n (apply_outcome s o)
      simp only [run_loop, List.map_cons, List.sum_cons]
      exact ⟨by rw [h1, p1, a1]; omega, by rw [h2, p2, a2]; omega,
        by rw [h3, p3, a3]; omega⟩

lemma one_row_partition_sum (os : List Outcome)
    (h : one_row_successes os = true) :
    (os.map outcome_partitions).sum + (os.map outcome_failures).sum
      = os.length := by
  induction os with
  | nil => simp
  | cons o rest ih =>
      simp only [one_row_successes, List.all_cons, Bool.and_eq_true] at h
      have hrest := ih h.2
      cases o with
      | failure =>
          simp only [List.map_cons, List.sum_cons, outcome_partitions,
            outcome_failures, List.length_cons]
          omega
      | success rows =>
          have hone : rows.length = 1 := by
            have := h.1
            simpa using this
          simp only [List.map_cons, List.sum_cons, outcome_partitions,
            outcome_failures, List.length_cons, hone]
          omega

/-- C2 — For every table repair run over `N` ranges in which exactly `k`
outcomes are delivered as failures and the rest as successes each carrying
exactly one row, the driver folds all `N` delivered outcomes into the
stats (never stopping after an early failure):
`repaired_partitions + failed_partitions = N`, `failed_partitions = k`,
and `repaired_rows` is the sum of the delivered row counts; a failure
increments only `failed_partitions`, a success with one row adds its count
to `repaired_rows` and increments `repaired_partitions`. -/
theorem driver_attempts_all (keyspace table : String)
    (partitions : List (Int × Int)) (outcomes : List Outcome)
    (hrows : one_row_successes outcomes = true)
    (hlen : outcomes.length = partitions.length) :
    ((repair_table keyspace table (Except.ok ()) partitions
        outcomes).stats.repaired_partitions +
     (repair_table keyspace table (Except.ok ()) partitions
        outcomes).stats.failed_partitions = partitions.length ∧
     (repair_table keyspace table (Except.ok ()) partitions
        outcomes).stats.failed_partitions = count_failures outcomes ∧
     (repair_table keyspace table (Except.ok ()) partitions
        outcomes).stats.repaired_rows = (outcomes.map outcome_rows).sum) ∧
    (∀ s, apply_outcome s Outcome.failure
        = { s with failed_partitions := s.failed_partitions + 1 }) ∧
    (∀ s c, apply_outcome s (Outcome.success [c])
        = { s with repaired_rows := s.repaired_rows + c,
                   repaired_partitions := s.repaired_partitions + 1 }) := by
  refine ⟨?_, fun s => rfl, fun s c => by simp [apply_outcome]⟩
  obtain ⟨h1, h2, h3⟩ := run_loop_counters partitions.length outcomes {}
  obtain ⟨p1, p2, p3⟩ :=
    print_stats_counters partitions.length
      (run_loop partitions.length outcomes {}).2
  have hsum := one_row_partition_sum outcomes hrows
  simp only [repair_table]
  refine ⟨?_, ?_, ?_⟩
  · rw [p2, p3, h2, h3]
    simp only [count_failures] at hsum ⊢
    omega
  · rw [p3, h3]
    simp [count_failures]
  · rw [p1, h1]
    simp

/-- Witness for C2: three ranges, the second outcome failing, the other
two succeeding with one row each. -/
theorem driver_attempts_all_witness :
    (one_row_successes
        [Outcome.success [10], Outcome.failure, Outcome.success [7]]
          = true ∧
     ([Outcome.success [10], Outcome.failure,
        Outcome.success [7]] : List Outcome).length
          = ([((0 : Int), (0 : Int)), (1, 1), (2, 2)]
              : List (Int × Int)).length) ∧
    (((repair_table "ks" "tbl" (Except.ok ())
        [((0 : Int), (0 : Int)), (1, 1), (2, 2)]
        [Outcome.success [10], Outcome.failure,
          Outcome.success [7]]).stats.repaired_partitions +
      (repair_table "ks" "tbl" (Except.ok ())
        [((0 : Int), (0 : Int)), (1, 1), (2, 2)]
        [Outcome.success [10], Outcome.failure,
          Outcome.success [7]]).stats.failed_partitions
        = ([((0 : Int), (0 : Int)), (1, 1), (2, 2)]
            : List (Int × Int)).length ∧
      (repair_table "ks" "tbl" (Except.ok ())
        [((0 : Int), (0 : Int)), (1, 1), (2, 2)]
        [Outcome.success [10], Outcome.failure,
          Outcome.success [7]]).stats.failed_partitions
        = count_failures
            [Outcome.success [10], Outcome.failure, Outcome.success [7]] ∧
      (repair_table "ks" "tbl" (Except.ok ())
        [((0 : Int), (0 : Int)), (1, 1), (2, 2)]
        [Outcome.success [10], Outcome.failure,
          Outcome.success [7]]).stats.repaired_rows
        = ([Outcome.success [10], Outcome.failure,
            Outcome.success [7]].map outcome_rows).sum) ∧
     (∀ s, apply_outcome s Outcome.failure
        = { s with failed_partitions := s.failed_partitions + 1 }) ∧
     (∀ s c, apply_outcome s (Outcome.success [c])
        = { s with repaired_rows := s.repaired_rows + c,
                   repaired_partitions := s.repaired_partitions + 1 })) :=
  ⟨⟨by decide, by decide⟩,
   driver_attempts_all "ks" "tbl" _ _ (by decide) (by decide)⟩

/-! ### Progress reporting -/

/-- Closed form of `print_stats`. -/
lemma print_stats_eq (n : Nat) (s : Stats) :
    print_stats n s =
      if s.percent
          < (s.repaired_partitions + s.failed_partitions) * 100 / n then
        (some ((s.repaired_partitions + s.failed_partitions) * 100 / n),
         { s with percent :=
            (s.repaired_partitions + s.failed_partitions) * 100 / n })
      else
        (none, s) := rfl

lemma pct_le_100 (p n : Nat) (h : p ≤ n) (hn : 0 < n) :
    p * 100 / n ≤ 100 := by
  calc p * 100 / n ≤ n * 100 / n :=
        Nat.div_le_div_right (Nat.mul_le_mul_right 100 h)
    _ = 100 := Nat.mul_div_cancel_left 100 hn

/-- Emissions of the delivery loop are strictly increasing, all above the
initial high-water mark and at most the final high-water mark, which never
decreases. -/
lemma run_loop_emits (n : Nat) : ∀ (os : List Outcome) (s : Stats),
    List.Chain' (· < ·) (run_loop n os s).1 ∧
    (∀ e ∈ (run_loop n os s).1,
        s.percent < e ∧ e ≤ (run_loop n os s).2.percent) ∧
    s.percent ≤ (run_loop n os s).2.percent := by
  intro os
  induction os with
  | nil => intro s; simp [run_loop]
  | cons o rest ih =>
      intro s
      have hpc : (apply_outcome s o).percent = s.percent :=
        (apply_outcome_fields s o).2.2.2
      cases hps : print_stats n (apply_outcome s o) with
      | mk eo s2 =>
        obtain ⟨hc, hb, hm⟩ := ih s2
        have hspec := print_stats_eq n (apply_outcome s o)
        rw [hps] at hspec
        simp only [run_loop, hps]
        split at hspec
        next hlt =>
          rw [hpc] at hlt
          injection hspec with he hs2
          subst he
          have hs2p : s2.percent
              = ((apply_outcome s o).repaired_partitions
                  + (apply_outcome s o).failed_partitions) * 100 / n := by
            rw [hs2]
          simp only [Option.toList_some, List.cons_append, List.nil_append]
          refine ⟨?_, ?_, ?_⟩
          · rw [List.chain'_cons']
            refine ⟨?_, hc⟩
            intro y hy
            have hmem := List.mem_of_mem_head? hy
            have := (hb y hmem).1
            omega
          · intro e he
            rcases List.mem_cons.mp he with h | h
            · subst h
              refine ⟨hlt, ?_⟩
              rw [← hs2p]
              exact hm
            · obtain ⟨hgt, hle⟩ := hb e h
              exact ⟨by omega, hle⟩
          · have h1 := hm
            rw [hs2p] at h1
            exact le_of_lt (lt_of_lt_of_le hlt h1)
        next hge =>
          rw [hpc] at hge
          injection hspec with he hs2
          subst he
          have hs2p : s2.percent = s.percent := by rw [hs2, hpc]
          simp only [Option.toList_none, List.nil_append]
          refine ⟨hc, ?_, ?_⟩
          · intro e he
            obtain ⟨hgt, hle⟩ := hb e he
            exact ⟨by omega, hle⟩
          · omega

/-- When every success carries exactly one row and the number of pending
outcomes fits in the denominator, every emitted percentage is at most
100. -/
lemma run_loop_emits_le (n : Nat) : ∀ (os : List Outcome) (s : Stats),
    one_row_successes os = true →
    s.repaired_partitions + s.failed_partitions + os.length ≤ n →
    ∀ e ∈ (run_loop n os s).1, e ≤ 100 := by
  intro os
  induction os with
  | nil => intro s _ _ e he; simp [run_loop] at he
  | cons o rest ih =>
      intro s hrow hbound e he
      simp only [one_row_successes, List.all_cons, Bool.and_eq_true] at hrow
      have hone : outcome_partitions o + outcome_failures o = 1 := by
        cases o with
        | failure => rfl
        | success rows =>
            have : rows.length = 1 := by simpa using hrow.1
            simp [outcome_partitions, outcome_failures, this]
      obtain ⟨a1, a2, a3, a4⟩ := apply_outcome_fields s o
      simp only [List.length_cons] at hbound
      cases hps : print_stats n (apply_outcome s o) with
      | mk eo s2 =>
        have hspec := print_stats_eq n (apply_outcome s o)
        rw [hps] at hspec
        obtain ⟨p1, p2, p3⟩ := print_stats_counters n (apply_outcome s o)
        rw [hps] at p1 p2 p3
        simp only [run_loop, hps] at he
        rw [List.mem_append] at he
        rcases he with he | he
        · split at hspec
          next hlt =>
            injection hspec with heo hs2
            subst heo
            simp only [Option.toList_some, List.mem_singleton] at he
            subst he
            have hn : 0 < n := by omega
            have hproc : (apply_outcome s o).repaired_partitions
                + (apply_outcome s o).failed_partitions ≤ n := by
              rw [a2, a3]; omega
            exact pct_le_100 _ n hproc hn
          next hge =>
            injection hspec with heo hs2
            subst heo
            simp at he
        · refine ih s2 hrow.2 ?_ e he
          rw [p2, p3, a2, a3]
          omega

/-- A strictly increasing list of naturals bounded by 100 has at most 101
elements. -/
lemma emits_length_le (l : List Nat) (hc : List.Chain' (· < ·) l)
    (hb : ∀ e ∈ l, e ≤ 100) : l.length ≤ 101 := by
  have hp : List.Pairwise (· < ·) l := List.chain'_iff_pairwise.mp hc
  have hnd : l.Nodup := hp.imp (fun h => Nat.ne_of_lt h)
  have hcard : l.toFinset.card = l.length := List.toFinset_card_of_nodup hnd
  have hsub : l.toFinset ⊆ Finset.Icc 0 100 := by
    intro x hx
    rw [List.mem_toFinset] at hx
    rw [Finset.mem_Icc]
    exact ⟨Nat.zero_le x, hb x hx⟩
  have hle := Finset.card_le_card hsub
  rw [hcard, Nat.card_Icc] at hle
  omega

/-- C3 — Across the per-outcome `print_stats` calls of one table plus the
final unconditional call, a line is printed only when the computed
percentage strictly exceeds the stored high-water mark (which is then
updated to it), so the sequence of emitted percentages is strictly
increasing — never repeated, never decreasing — and, when each success
carries one row and one outcome arrives per range, at most 101 lines are
printed regardless of the range count. -/
theorem progress_monotonic (keyspace table : String)
    (partitions : List (Int × Int)) (outcomes : List Outcome)
    (hrows : one_row_successes outcomes = true)
    (hlen : outcomes.length = partitions.length) :
    (∀ (n : Nat) (s : Stats) (x : Nat), (print_stats n s).1 = some x →
        s.percent < x ∧ (print_stats n s).2.percent = x) ∧
    List.Pairwise (· < ·)
      (repair_table keyspace table (Except.ok ()) partitions
        outcomes).emitted ∧
    (repair_table keyspace table (Except.ok ()) partitions
        outcomes).emitted.length ≤ 101 := by
  have hguard : ∀ (n : Nat) (s : Stats) (x : Nat),
      (print_stats n s).1 = some x →
      s.percent < x ∧ (print_stats n s).2.percent = x := by
    intro n s x hx
    have hspec := print_stats_eq n s
    split at hspec
    next hlt =>
      rw [hspec] at hx
      simp only [Option.some.injEq] at hx
      subst hx
      rw [hspec]
      exact ⟨hlt, rfl⟩
    next hge =>
      rw [hspec] at hx
      cases hx
  set n := partitions.length with hn
  obtain ⟨hc, hbnd, hm⟩ := run_loop_emits n outcomes {}
  have hle := run_loop_emits_le n outcomes {} hrows
    (by simp [hlen])
  -- the final unconditional call
  cases hfin : print_stats n (run_loop n outcomes {}).2 with
  | mk eo sf =>
    have hchain : List.Chain' (· < ·)
        ((run_loop n outcomes {}).1 ++ eo.toList) := by
      refine List.Chain'.append hc ?_ ?_
      · cases eo <;> simp
      · intro x hx y hy
        have hxm := List.mem_of_mem_getLast? hx
        have hxle := (hbnd x hxm).2
        cases eo with
        | none => simp at hy
        | some v =>
            simp only [Option.toList_some, List.head?_cons,
              Option.mem_def, Option.some.injEq] at hy
            subst hy
            have := hguard n (run_loop n outcomes {}).2 v (by rw [hfin])
            omega
    have hble : ∀ e ∈ (run_loop n outcomes {}).1 ++ eo.toList, e ≤ 100 := by
      intro e he
      rw [List.mem_append] at he
      rcases he with he | he
      · exact hle e he
      · cases eo with
        | none => simp at he
        | some v =>
            simp only [Option.toList_some, List.mem_singleton] at he
            rw [he]
            have hv := hguard n (run_loop n outcomes {}).2 v (by rw [hfin])
            obtain ⟨c1, c2, c3⟩ := run_loop_counters n outcomes {}
            have hsum := one_row_partition_sum outcomes hrows
            -- v is the percentage of total processed = n
            have hveq : v = ((run_loop n outcomes {}).2.repaired_partitions
                + (run_loop n outcomes {}).2.failed_partitions) * 100 / n := by
              have hspec := print_stats_eq n (run_loop n outcomes {}).2
              rw [hfin] at hspec
              split at hspec
              next =>
                rw [Prod.mk.injEq] at hspec
                have h1 := hspec.1
                simp only [Option.some.injEq] at h1
                exact h1
              next =>
                rw [Prod.mk.injEq] at hspec
                exact absurd hspec.1 (by simp)
            have hproc : (run_loop n outcomes {}).2.repaired_partitions
                + (run_loop n outcomes {}).2.failed_partitions = n := by
              rw [c2, c3]
              simp only [Stats.repaired_partitions, Stats.failed_partitions]
              omega
            have hn0 : 0 < n := by
              by_contra hz
              have : n = 0 := by omega
              rw [this] at hveq
              simp at hveq
              have := hv.1
              omega
            rw [hveq, hproc]
            exact pct_le_100 n n (le_refl n) hn0
    refine ⟨hguard, ?_, ?_⟩
    · have : (repair_table keyspace table (Except.ok ()) partitions
          outcomes).emitted = (run_loop n outcomes {}).1 ++ eo.toList := by
        simp only [repair_table, hn]
        rw [hfin]
      rw [this]
      exact List.chain'_iff_pairwise.mp hchain
    · have : (repair_table keyspace table (Except.ok ()) partitions
          outcomes).emitted = (run_loop n outcomes {}).1 ++ eo.toList := by
        simp only [repair_table, hn]
        rw [hfin]
      rw [this]
      exact emits_length_le _ hchain hble

/-- Witness for C3: two ranges, one failure then one single-row success. -/
theorem progress_monotonic_witness :
    (one_row_successes [Outcome.failure, Outcome.success [5]] = true ∧
     ([Outcome.failure, Outcome.success [5]] : List Outcome).length
        = ([((0 : Int), (0 : Int)), (1, 1)] : List (Int × Int)).length) ∧
    ((∀ (n : Nat) (s : Stats) (x : Nat), (print_stats n s).1 = some x →
        s.percent < x ∧ (print_stats n s).2.percent = x) ∧
     List.Pairwise (· < ·)
       (repair_table "ks" "tbl" (Except.ok ())
         [((0 : Int), (0 : Int)), (1, 1)]
         [Outcome.failure, Outcome.success [5]]).emitted ∧
     (repair_table "ks" "tbl" (Except.ok ())
       [((0 : Int), (0 : Int)), (1, 1)]
       [Outcome.failure, Outcome.success [5]]).emitted.length ≤ 101) :=
  ⟨⟨by decide, by decide⟩,
   progress_monotonic "ks" "tbl" _ _ (by decide) (by decide)⟩

/-- A second `print_stats` call on unchanged stats never prints: the first
call either raised the high-water mark to the computed percentage or left
everything unchanged, so the guard `percent > stats["percent"]` is false
the second time. -/
lemma print_stats_twice (n : Nat) (s : Stats) :
    (print_stats n (print_stats n s).2).1 = none := by
  rw [print_stats_eq n s]
  split
  next hlt =>
    rw [print_stats_eq]
    simp
  next hge =>
    rw [print_stats_eq]
    simp only [hge, if_false]

/-- After a nonempty delivery loop, the running stats are the output of
the last in-loop `print_stats` call. -/
lemma run_loop_final_is_print (n : Nat) : ∀ (os : List Outcome) (s : Stats),
    os ≠ [] → ∃ s', (run_loop n os s).2 = (print_stats n s').2 := by
  intro os
  induction os with
  | nil => intro s hne; exact absurd rfl hne
  | cons o rest ih =>
      intro s _
      by_cases hr : rest = []
      · subst hr
        exact ⟨apply_outcome s o, by simp [run_loop]⟩
      · obtain ⟨s', hs'⟩ := ih (print_stats n (apply_outcome s o)).2 hr
        exact ⟨s', by simp only [run_loop]; exact hs'⟩

/-- With one outcome per range (successes one-row) the last in-loop
`print_stats` call always prints `100`: the last delivered outcome raises
the processed count to the full denominator, and the stored high-water
mark is below 100 beforehand. -/
lemma run_loop_last_100 (n : Nat) : ∀ (os : List Outcome) (s : Stats),
    one_row_successes os = true →
    os ≠ [] →
    s.repaired_partitions + s.failed_partitions + os.length = n →
    s.percent ≤ (s.repaired_partitions + s.failed_partitions) * 100 / n →
    (run_loop n os s).1.getLast? = some 100 := by
  intro os
  induction os with
  | nil => intro s _ hne; exact absurd rfl hne
  | cons o rest ih =>
      intro s hrow _ hcount hinv
      simp only [one_row_successes, List.all_cons, Bool.and_eq_true] at hrow
      have hone : outcome_partitions o + outcome_failures o = 1 := by
        cases o with
        | failure => rfl
        | success rows =>
            have : rows.length = 1 := by simpa using hrow.1
            simp [outcome_partitions, outcome_failures, this]
      obtain ⟨a1, a2, a3, a4⟩ := apply_outcome_fields s o
      simp only [List.length_cons] at hcount
      have hn : 0 < n := by omega
      by_cases hr : rest = []
      · subst hr
        simp only [List.length_nil] at hcount
        have hproc : (apply_outcome s o).repaired_partitions
            + (apply_outcome s o).failed_partitions = n := by
          rw [a2, a3]; omega
        have hpct : ((apply_outcome s o).repaired_partitions
            + (apply_outcome s o).failed_partitions) * 100 / n = 100 := by
          rw [hproc]
          exact Nat.mul_div_cancel_left 100 hn
        have hstored : s.percent < 100 := by
          have hlt : (s.repaired_partitions + s.failed_partitions) * 100 / n
              < 100 := by
            rw [Nat.div_lt_iff_lt_mul hn]
            omega
          omega
        simp only [run_loop]
        rw [print_stats_eq, if_pos (by rw [a4, hpct]; exact hstored)]
        rw [hpct]
        simp
      · cases hps : print_stats n (apply_outcome s o) with
        | mk eo s2 =>
          have hspec := print_stats_eq n (apply_outcome s o)
          rw [hps] at hspec
          obtain ⟨p1, p2, p3⟩ := print_stats_counters n (apply_outcome s o)
          rw [hps] at p1 p2 p3
          have hcount2 : s2.repaired_partitions + s2.failed_partitions
              + rest.length = n := by
            rw [p2, p3, a2, a3]; omega
          have hinv2 : s2.percent
              ≤ (s2.repaired_partitions + s2.failed_partitions) * 100 / n := by
            split at hspec
            next hlt =>
              injection hspec with heo hs2
              rw [hs2]
            next hge =>
              injection hspec with heo hs2
              rw [hs2, a4]
              calc s.percent
                  ≤ (s.repaired_partitions + s.failed_partitions) * 100 / n :=
                    hinv
                _ ≤ ((apply_outcome s o).repaired_partitions
                      + (apply_outcome s o).failed_partitions) * 100 / n :=
                    Nat.div_le_div_right
                      (Nat.mul_le_mul_right 100 (by rw [a2, a3]; omega))
          have htail := ih s2 hrow.2 hr hcount2 hinv2
          simp only [run_loop, hps]
          rw [List.getLast?_append, htail]
          simp

/-- C4 counterexample — a run over one range whose single outcome is a
success with an empty row list: the delivered outcome does not cross any
percentage boundary, and no summary line at all is printed — in
particular the unconditional extra `print_stats` call after the loop
prints nothing. -/
theorem final_call_counterexample :
    (repair_table "ks" "tbl" (Except.ok ()) [((0 : Int), (0 : Int))]
        [Outcome.success []]).emitted = [] := by decide

/-- C4 amended — the unconditional extra `print_stats` call after the
loop can never print anything (the stats are unchanged since the last
in-loop call, so its guard is false); the final summary line is instead
guaranteed by the in-loop call on the last outcome: in every run with at
least one delivered outcome, one outcome per range and one row per
success, the last printed line reports 100%. -/
theorem final_call_never_prints (keyspace table : String)
    (partitions : List (Int × Int)) (outcomes : List Outcome)
    (hrows : one_row_successes outcomes = true)
    (hlen : outcomes.length = partitions.length)
    (hne : outcomes ≠ []) :
    (∀ (n : Nat) (s : Stats),
        (print_stats n (print_stats n s).2).1 = none) ∧
    (repair_table keyspace table (Except.ok ()) partitions
        outcomes).emitted.getLast? = some 100 := by
  refine ⟨print_stats_twice, ?_⟩
  set n := partitions.length with hn
  obtain ⟨s', hs'⟩ := run_loop_final_is_print n outcomes {} hne
  have hfin : (print_stats n (run_loop n outcomes {}).2).1 = none := by
    rw [hs']
    exact print_stats_twice n s'
  have hlast := run_loop_last_100 n outcomes {} hrows hne
    (by simp [hlen]) (by simp)
  simp only [repair_table, hn]
  rw [List.getLast?_append]
  rw [hn] at hfin hlast
  rw [hfin, hlast]
  simp

/-- Witness for C4 (amended): one range, one failing outcome — the only
printed line is the final 100% line, printed by the in-loop call. -/
theorem final_call_never_prints_witness :
    (one_row_successes [Outcome.failure] = true ∧
     ([Outcome.failure] : List Outcome).length
        = ([((0 : Int), (0 : Int))] : List (Int × Int)).length ∧
     ([Outcome.failure] : List Outcome) ≠ []) ∧
    ((∀ (n : Nat) (s : Stats),
        (print_stats n (print_stats n s).2).1 = none) ∧
     (repair_table "ks" "tbl" (Except.ok ()) [((0 : Int), (0 : Int))]
        [Outcome.failure]).emitted.getLast? = some 100) :=
  ⟨⟨by decide, by decide, by decide⟩,
   final_call_never_prints "ks" "tbl" _ _ (by decide) (by decide)
     (by decide)⟩

/-! ### Remaining claims -/

/-- C6 — Supplying `--tables` makes line 237 read `options.table`, an
attribute that no parser `dest` defines, so the table-list resolution
raises `AttributeError` instead of using the comma-split of the flag
value; without the flag, discovery from metadata works as documented. -/
theorem tables_flag_attribute_error :
    resolve_tables
        (parsed_attrs none (some "t1,t2") none none none "h1,h2")
        ["m1", "m2"]
      = Except.error "AttributeError: table" ∧
    resolve_tables
        (parsed_attrs none none none none none "h1,h2")
        ["m1", "m2"]
      = Except.ok ["m1", "m2"] := by
  constructor <;> rfl

/-- C7 — `repair_table` returns `True` exactly when no exception escapes
the table-level work: the per-range outcomes — failures included — never
flip the result, while a table-level exception (metadata resolution,
session establishment) is caught, prints the error line and yields
`False`. -/
theorem repair_table_fatal_iff (keyspace table : String)
    (setup : Except String Unit) (partitions : List (Int × Int))
    (outcomes : List Outcome) :
    ((repair_table keyspace table setup partitions outcomes).ok
        = setup.isOk) ∧
    ((repair_table keyspace table setup partitions
        outcomes).error_line.isSome = !setup.isOk) := by
  cases setup <;> simp [repair_table, Except.isOk, Except.toBool]

/-- C8 — Concrete scenario: `partition_size = 4` yields exactly the four
ranges tiling the token space; a driver run over those four ranges in
which range 2 fails and the others succeed with a single row of count 10
ends with `repaired_rows = 30`, `repaired_partitions = 3`,
`failed_partitions = 1`, and `repair_table` returns `True`. -/
theorem concrete_scenario :
    get_token_ranges 4 =
      [(-9223372036854775807, -4611686018427387904),
       (-4611686018427387903, 0),
       (1, 4611686018427387904),
       (4611686018427387905, 9223372036854775807)] ∧
    ((repair_table "ks" "tbl" (Except.ok ())
        [(-9223372036854775807, -4611686018427387904),
         (-4611686018427387903, 0),
         (1, 4611686018427387904),
         (4611686018427387905, 9223372036854775807)]
        [Outcome.success [10], Outcome.failure,
         Outcome.success [10], Outcome.success [10]]).stats.repaired_rows
        = 30 ∧
     (repair_table "ks" "tbl" (Except.ok ())
        [(-9223372036854775807, -4611686018427387904),
         (-4611686018427387903, 0),
         (1, 4611686018427387904),
         (4611686018427387905, 9223372036854775807)]
        [Outcome.success [10], Outcome.failure,
         Outcome.success [10], Outcome.success [10]]).stats.repaired_partitions
        = 3 ∧
     (repair_table "ks" "tbl" (Except.ok ())
        [(-9223372036854775807, -4611686018427387904),
         (-4611686018427387903, 0),
         (1, 4611686018427387904),
         (4611686018427387905, 9223372036854775807)]
        [Outcome.success [10], Outcome.failure,
         Outcome.success [10], Outcome.success [10]]).stats.failed_partitions
        = 1 ∧
     (repair_table "ks" "tbl" (Except.ok ())
        [(-9223372036854775807, -4611686018427387904),
         (-4611686018427387903, 0),
         (1, 4611686018427387904),
         (4611686018427387905, 9223372036854775807)]
        [Outcome.success [10], Outcome.failure,
         Outcome.success [10], Outcome.success [10]]).ok = true) :=
  ⟨get_token_ranges_four, by decide, by decide, by decide, by decide⟩

/-- Truthiness of an optional string means: supplied and non-empty. -/
lemma py_truthy_iff (s : Option String) :
    py_truthy s = true ↔ ∃ v, s = some v ∧ v ≠ "" := by
  cases s with
  | none => simp [py_truthy]
  | some v =>
      simp only [py_truthy, Bool.not_eq_true', Option.some.injEq]
      constructor
      · intro h
        refine ⟨v, rfl, ?_⟩
        intro hv
        subst hv
        simp [String.isEmpty] at h
      · rintro ⟨v', hv, hne⟩
        subst hv
        cases hx : v.isEmpty
        · rfl
        · exact absurd ((String.isEmpty_iff v).mp hx) hne

/-- C9 — `PlainTextAuthProvider` is constructed iff both `--username` and
`--password` are supplied and non-empty; supplying only one of the two
(or an empty string for either) leaves `auth_provider = None`, silently. -/
theorem auth_provider_iff (username password : Option String) :
    ((make_auth_provider username password).isSome = true ↔
      ((∃ u, username = some u ∧ u ≠ "") ∧
       (∃ p, password = some p ∧ p ≠ ""))) ∧
    (∀ u, make_auth_provider (some u) none = none) ∧
    (∀ p, make_auth_provider none (some p) = none) ∧
    (∀ u, make_auth_provider (some u) (some "") = none) ∧
    (∀ p, make_auth_provider (some "") (some p) = none) := by
  have hsome : ∀ (a b : Option String),
      (make_auth_provider a b).isSome = (py_truthy a && py_truthy b) := by
    intro a b
    simp only [make_auth_provider]
    split
    next hc => simp [hc]
    next hc =>
      rw [Bool.not_eq_true] at hc
      simp [hc]
  refine ⟨?_,
    fun u => by simp [make_auth_provider, py_truthy],
    fun p => by simp [make_auth_provider, py_truthy],
    fun u => by simp [make_auth_provider, py_truthy, String.isEmpty],
    fun p => by simp [make_auth_provider, py_truthy, String.isEmpty]⟩
  rw [hsome, Bool.and_eq_true, py_truthy_iff, py_truthy_iff]

/-- C10 — Whenever `--cacert` is supplied (non-empty), the SSL options
passed to every cluster connection set `cert_reqs = CERT_NONE` and
`ssl_version = TLSv1.2`: TLS is enabled but server-certificate
verification is disabled despite the CA path. -/
theorem cacert_disables_verification (cacert : Option String)
    (h : py_truthy cacert = true) :
    ∃ opts, make_ssl_opts cacert = some opts ∧
      opts.cert_reqs = CertReqs.CERT_NONE ∧
      opts.ssl_version = SSLVersion.TLSv1_2 := by
  refine ⟨{ ca_certs := cacert.getD "",
            ssl_version := SSLVersion.TLSv1_2,
            cert_reqs := CertReqs.CERT_NONE }, ?_, rfl, rfl⟩
  simp [make_ssl_opts, h]

/-- Witness for C10 at `--cacert ca.pem`. -/
theorem cacert_disables_verification_witness :
    py_truthy (some "ca.pem") = true ∧
    ∃ opts, make_ssl_opts (some "ca.pem") = some opts ∧
      opts.cert_reqs = CertReqs.CERT_NONE ∧
      opts.ssl_version = SSLVersion.TLSv1_2 :=
  ⟨by decide, cacert_disables_verification (some "ca.pem") (by decide)⟩

end Repairer
